import Mathlib

/-!
Verification of the ASSUME market product scheduling & clearing engine
specification against the repository sources.

Time values are modelled as integers (an abstract tick count; hours for the
calendar-rule functions), prices and volumes as rationals.  Functions present
in the sources (`marketconfig.py`, `demand.py`) are translated directly;
components that the sources only declare or call (the Clearing Engine and the
Product Schedule Generator) are modelled from the specification and marked so
in their doc comments.
-/

namespace AssumeSpec

/-- An order, translated from the `Order` TypedDict in
`assume/common/marketconfig.py`: `start_time`, `end_time`, `volume` (signed),
`price`, `only_hours`, `agent_id`. -/
structure Order where
  start_time : Int
  end_time : Int
  volume : Rat
  price : Rat
  only_hours : Option (Nat × Nat)
  agent_id : String
deriving DecidableEq, Repr

/-- The numeric fields of the `MarketConfig` dataclass of
`assume/common/marketconfig.py`, with the defaults declared there:
`maximum_bid = 9999`, `minimum_bid = -500`, `maximum_volume = 500`,
`amount_tick = 0.1`, `price_tick = 0.1`. -/
structure MarketConfig where
  name : String
  maximum_bid : Rat := 9999
  minimum_bid : Rat := -500
  maximum_volume : Rat := 500
  amount_tick : Rat := 1/10
  price_tick : Rat := 1/10
deriving DecidableEq, Repr

/-- A `MarketConfig` with all numeric defaults of the dataclass. -/
def defaultMarketConfig : MarketConfig := { name := "default" }

/-- Modelled from the spec: the Order Validator (§4.3) is not under the
sources; its first two checks are modelled here: price within
`[minimum_bid, maximum_bid]`, and `|volume|` a positive multiple of
`amount_tick` bounded by `maximum_volume`. -/
def validOrder (cfg : MarketConfig) (o : Order) : Bool :=
  cfg.minimum_bid ≤ o.price && o.price ≤ cfg.maximum_bid &&
    o.volume ≠ 0 && (o.volume / cfg.amount_tick).den = 1 &&
    |o.volume| ≤ cfg.maximum_volume

/-- Ascending stable insertion by price: an element is placed before the
first already-sorted element of strictly larger price, so earlier arrivals
keep priority among equal prices. -/
def insertAsc (o : Order) : List Order → List Order
  | [] => [o]
  | y :: ys => if y.price < o.price then y :: insertAsc o ys else o :: y :: ys

/-- Stable sort of supply orders, cheapest first. -/
def sortAsc : List Order → List Order
  | [] => []
  | x :: xs => insertAsc x (sortAsc xs)

/-- Descending stable insertion by price. -/
def insertDesc (o : Order) : List Order → List Order
  | [] => [o]
  | y :: ys => if o.price < y.price then y :: insertDesc o ys else o :: y :: ys

/-- Stable sort of demand orders, highest willingness-to-pay first. -/
def sortDesc : List Order → List Order
  | [] => []
  | x :: xs => insertDesc x (sortDesc xs)

/-- Modelled from the spec: the merit-order matching walk of the Clearing
Engine (§4.4), which is not under the sources.  Both arguments are lists of
`(price, magnitude)` pairs, supply sorted ascending and demand descending;
the walk accumulates matched chunks until a list is exhausted or the next
supply price exceeds the next demand price, clipping the marginal order so
both sides match the same volume.  It returns the accepted supply chunks,
the accepted demand chunks, and the clearing price, pinned to the price of
the last matched demand order. -/
def meritMatch :
    List (Rat × Rat) → List (Rat × Rat) →
      List (Rat × Rat) × List (Rat × Rat) × Option Rat
  | [], _ => ([], [], none)
  | _ :: _, [] => ([], [], none)
  | (sp, sv) :: ss, (dp, dv) :: ds =>
    if dp < sp then ([], [], none)
    else if sv < dv then
      let r := meritMatch ss ((dp, dv - sv) :: ds)
      ((sp, sv) :: r.1, (dp, sv) :: r.2.1, some (r.2.2.getD dp))
    else if dv < sv then
      let r := meritMatch ((sp, sv - dv) :: ss) ds
      ((sp, dv) :: r.1, (dp, dv) :: r.2.1, some (r.2.2.getD dp))
    else
      let r := meritMatch ss ds
      ((sp, dv) :: r.1, (dp, dv) :: r.2.1, some (r.2.2.getD dp))
termination_by s d => s.length + d.length

/-- Result of clearing one product: accepted `(settlement price, signed
accepted volume)` chunks on the supply and on the demand side, and the
uniform clearing price when one exists. -/
structure ClearResult where
  supplyAccepted : List (Rat × Rat)
  demandAccepted : List (Rat × Rat)
  price : Option Rat
deriving DecidableEq, Repr

/-- Sum of the signed accepted volumes of a chunk list. -/
def sumVolumes (l : List (Rat × Rat)) : Rat := (l.map Prod.snd).sum

/-- Modelled from the spec: `pay_as_clear` (§4.4).  Orders are partitioned
into supply (`volume < 0`) and demand (`volume > 0`), sorted by merit, and
matched by `meritMatch`; every accepted chunk settles at the single clearing
price.  Supply chunks carry negative signed volumes, demand chunks positive
ones. -/
def payAsClear (book : List Order) : ClearResult :=
  let supply := sortAsc (book.filter (fun o => o.volume < 0))
  let demand := sortDesc (book.filter (fun o => 0 < o.volume))
  let r := meritMatch (supply.map fun o => (o.price, -o.volume))
                      (demand.map fun o => (o.price, o.volume))
  let p := r.2.2
  { supplyAccepted := r.1.map fun c => (p.getD c.1, -c.2)
    demandAccepted := r.2.1.map fun c => (p.getD c.1, c.2)
    price := p }

/-- Modelled from the spec: `pay_as_bid` (§4.4).  Same matching procedure as
`payAsClear`, but every accepted chunk settles at its own bid price. -/
def payAsBid (book : List Order) : ClearResult :=
  let supply := sortAsc (book.filter (fun o => o.volume < 0))
  let demand := sortDesc (book.filter (fun o => 0 < o.volume))
  let r := meritMatch (supply.map fun o => (o.price, -o.volume))
                      (demand.map fun o => (o.price, o.volume))
  { supplyAccepted := r.1.map fun c => (c.1, -c.2)
    demandAccepted := r.2.1.map fun c => (c.1, c.2)
    price := r.2.2 }

/-- One immediate trade of `continuous_clearing`: the matched volume is
credited to the incoming order (`newAccepted`, signed with the incoming
order's side) and to the resting order (`restAccepted`, signed with the
resting order's side); the trade settles at the resting order's price. -/
structure Trade where
  price : Rat
  newAgent : String
  restAgent : String
  newAccepted : Rat
  restAccepted : Rat
deriving DecidableEq, Repr

/-- Modelled from the spec: compatibility of a resting order with an
incoming order under `continuous_clearing` (§4.4): a buy matches a resting
sell priced at or below its bid, and vice versa. -/
def compatible (r o : Order) : Bool :=
  if 0 < o.volume then r.volume < 0 && r.price ≤ o.price
  else if o.volume < 0 then 0 < r.volume && o.price ≤ r.price
  else false

/-- One fold step of best-order selection: keep the incumbent unless `r`
is compatible and strictly better priced. -/
def betterOf (o : Order) (acc : Option Order) (r : Order) : Option Order :=
  if compatible r o then
    match acc with
    | none => some r
    | some b =>
      if (if 0 < o.volume then r.price < b.price else b.price < r.price)
      then some r else some b
  else acc

/-- Modelled from the spec: select the best-priced compatible resting order
(price-time priority, §4.4): cheapest resting sell for a buy, dearest
resting buy for a sell, the earliest-resting order winning ties. -/
def findBest (book : List Order) (o : Order) : Option Order :=
  book.foldl (betterOf o) none

/-- Reduce the first resting order satisfying `p` by magnitude `m`,
dropping it when fully consumed. -/
def reduceFirst (p : Order → Bool) (m : Rat) : List Order → List Order
  | [] => []
  | r :: rs =>
    if p r then
      if |r.volume| = m then rs
      else (if r.volume < 0 then { r with volume := r.volume + m }
            else { r with volume := r.volume - m }) :: rs
    else r :: reduceFirst p m rs

/-- Modelled from the spec: the matching loop of `continuous_clearing`
(§4.4).  The incoming order is matched against the best-priced compatible
resting order, trading at the resting price, until it is filled or no match
remains; any unmatched remainder is appended as the participant's resting
order.  The fuel argument bounds the number of iterations by the book
length. -/
def matchCont : Nat → List Order → Order → List Order × List Trade
  | 0, book, o => (if o.volume = 0 then book else book ++ [o], [])
  | fuel + 1, book, o =>
    if o.volume = 0 then (book, [])
    else
      match findBest book o with
      | none => (book ++ [o], [])
      | some b =>
        let m := min |o.volume| |b.volume|
        let t : Trade :=
          { price := b.price
            newAgent := o.agent_id
            restAgent := b.agent_id
            newAccepted := if 0 < o.volume then m else -m
            restAccepted := if b.volume < 0 then -m else m }
        let book' := reduceFirst (fun r => compatible r o && r.price = b.price) m book
        let o' : Order :=
          { o with volume := if 0 < o.volume then o.volume - m else o.volume + m }
        let rec2 := matchCont fuel book' o'
        (rec2.1, t :: rec2.2)

/-- Modelled from the spec: submission of one order to a continuous market
(§4.4): any prior resting order of the same participant is overwritten
before matching, then the order is matched and its remainder rests. -/
def submit (book : List Order) (o : Order) : List Order × List Trade :=
  let book1 := book.filter (fun r => r.agent_id ≠ o.agent_id)
  matchCont (book1.length + 1) book1 o

/-- A template field that is either a fixed value or computed from the
current opening time, following the tagged-variant representation the spec
prescribes (§9) for the callable `count` and offset fields of the
`MarketProduct` dataclass. -/
inductive FieldSpec (α : Type) where
  | fixed : α → FieldSpec α
  | computed : (Int → α) → FieldSpec α

/-- A product template, translated from the `MarketProduct` dataclass of
`assume/common/marketconfig.py`: a signed `duration`, a `count` (fixed
integer or function of the opening time), a `first_delivery_after_start`
offset (fixed span or function of the opening time), and an optional
`only_hours` pair. -/
structure MarketProduct where
  duration : Int
  count : FieldSpec Int
  first_delivery_after_start : FieldSpec Int
  only_hours : Option (Nat × Nat) := none

/-- A concrete delivery-window instance produced for one round. -/
structure ProductInstance where
  start : Int
  stop : Int
  only_hours : Option (Nat × Nat)
deriving DecidableEq, Repr

/-- Resolve a fixed-or-computed field against the opening time (§4.2
steps 1 and 2). -/
def resolveField {α : Type} : FieldSpec α → Int → α
  | .fixed v, _ => v
  | .computed f, t => f t

/-- Number of instances a template contributes at opening time `t`: the
resolved count, clamped at zero for non-positive resolutions (§4.2 edge
case policy). -/
def numProducts (tpl : MarketProduct) (t : Int) : Nat :=
  (resolveField tpl.count t).toNat

/-- The `i`-th delivery window of a template at opening time `t`:
`start = t + first_delivery_offset + i * duration`, `end = start + duration`,
with `only_hours` attached unchanged (§4.2 steps 3 and 4). -/
def mkProduct (tpl : MarketProduct) (t : Int) (i : Nat) : ProductInstance :=
  { start := t + resolveField tpl.first_delivery_after_start t + i * tpl.duration
    stop := t + resolveField tpl.first_delivery_after_start t + i * tpl.duration
              + tpl.duration
    only_hours := tpl.only_hours }

/-- All instances of one template for the round opening at `t`, in index
order. -/
def productsOf (tpl : MarketProduct) (t : Int) : List ProductInstance :=
  (List.range (numProducts tpl t)).map (mkProduct tpl t)

/-- Modelled from the spec: the Product Schedule Generator (§4.2), which the
sources only call (`get_available_products` in the tests): it expands every
template into its instances, in template-declaration order then index
order. -/
def get_available_products (tpls : List MarketProduct) (t : Int) :
    List ProductInstance :=
  (tpls.map (fun tpl => productsOf tpl t)).flatten

/-- Number of instances contributed by the first `j` templates, i.e. the
position at which template `j`'s instances begin in the generated list. -/
def countBefore (tpls : List MarketProduct) (t : Int) (j : Nat) : Nat :=
  ((tpls.take j).map (fun tpl => numProducts tpl t)).sum

/-- A relativedelta value as returned by `dynamic_end`: a day shift plus an
absolute hour component. -/
structure RelDelta where
  days : Int
  hour : Option Int
deriving DecidableEq, Repr

/-- Hour of day of an absolute time counted in hours. -/
def hourOf (t : Int) : Int := t % 24

/-- Start of the day containing an absolute time counted in hours. -/
def dayStart (t : Int) : Int := 24 * (t / 24)

/-- Apply a relativedelta to an absolute time counted in hours: shift by
whole days, then set the hour of day when an absolute hour is given. -/
def applyRd (r : RelDelta) (t : Int) : Int :=
  let t' := t + 24 * r.days
  match r.hour with
  | none => t'
  | some h => dayStart t' + h

/-- Translated from `dynamic_end` in `assume/common/marketconfig.py`:
before 15:00 the tradable horizon ends with `rd(days=+1, hour=0)`, from
15:00 on with `rd(days=+2, hour=0)`. -/
def dynamic_end (t : Int) : RelDelta :=
  if hourOf t < 15 then { days := 1, hour := some 0 }
  else { days := 2, hour := some 0 }

/-- Translated from `dynamic_repetition` in
`assume/common/marketconfig.py`: `24 + hour` before 13:00, `hour`
afterwards. -/
def dynamic_repetition (t : Int) : Int :=
  if hourOf t < 13 then 24 + hourOf t else hourOf t

/-- The after-market product template of `epex_aftermarket_trading_config`
in `assume/common/marketconfig.py`: hourly products of negative duration
(`rd(hours=-1)`), count given by `dynamic_repetition`, zero first-delivery
offset. -/
def epex_aftermarket_product : MarketProduct :=
  { duration := -1
    count := .computed dynamic_repetition
    first_delivery_after_start := .fixed 0 }

/-- The snapshot of an agent's account used by the smart contracts of
`assume/common/marketconfig.py`. -/
structure Agent where
  generation : Rat
  revenue : Rat
deriving DecidableEq, Repr

/-- Translated from `ppa` in `assume/common/marketconfig.py`: the buyer
absorbs the seller's generation, the seller is paid `26` per unit of its
generation by the buyer, and the seller's generation is reset to zero, in
the statement order of the source. -/
def ppa (buyer seller : Agent) : Agent × Agent :=
  let set_price : Rat := 26
  let buyer1 : Agent := { buyer with generation := buyer.generation + seller.generation }
  let seller1 : Agent := { seller with revenue := seller.revenue + seller.generation * set_price }
  let buyer2 : Agent := { buyer1 with revenue := buyer1.revenue - seller1.generation * set_price }
  let seller2 : Agent := { seller1 with generation := 0 }
  (buyer2, seller2)

/-- The fields of the `Demand` unit of `assume/units/demand.py` used by
`calculate_operational_window`; `max_power` and `price` are modelled as
time-indexed series, covering both the scalar and the `pd.Series` branch of
the source. -/
structure Demand where
  max_power : Int → Rat
  price : Int → Rat

/-- The bid produced for one delivery window: a `power` volume and a
`marginal_cost`. -/
structure OperationalWindow where
  power : Rat
  marginal_cost : Rat
deriving DecidableEq, Repr

/-- Translated from `Demand.calculate_operational_window` in
`assume/units/demand.py`: the bid volume is the negation of `max_power` at
the window start, and the bid price is `price` at the window start. -/
def calculate_operational_window (u : Demand) (start : Int) :
    OperationalWindow :=
  { power := -(u.max_power start), marginal_cost := u.price start }

/-- The supply order of the pay-as-clear scenario: volume `-100` at price
`20`. -/
def scenarioSell : Order :=
  { start_time := 0, end_time := 1, volume := -100, price := 20
    only_hours := none, agent_id := "supplier" }

/-- The demand order of the pay-as-clear scenario: volume `100` at price
`30`. -/
def scenarioBuy : Order :=
  { start_time := 0, end_time := 1, volume := 100, price := 30
    only_hours := none, agent_id := "consumer" }

/-- A demand unit with constant `max_power = 1000` and `price = 3000`, the
values of `test_formulate_bids` in `tests/test_units_operator.py`. -/
def testDemand : Demand := { max_power := fun _ => 1000, price := fun _ => 3000 }

/-- C2: with the `MarketConfig` defaults (`minimum_bid = -500`,
`maximum_bid = 9999`, `amount_tick = 0.1`), one supply order of volume
`-100` at price `20` and one demand order of volume `100` at price `30` are
both valid, and pay-as-clear accepts the full `100` volume on both sides at
a clearing price inside `[20, 30]`. -/
theorem pay_as_clear_scenario :
    defaultMarketConfig.minimum_bid = -500 ∧
    defaultMarketConfig.maximum_bid = 9999 ∧
    defaultMarketConfig.amount_tick = 1/10 ∧
    validOrder defaultMarketConfig scenarioSell = true ∧
    validOrder defaultMarketConfig scenarioBuy = true ∧
    sumVolumes (payAsClear [scenarioSell, scenarioBuy]).supplyAccepted = -100 ∧
    sumVolumes (payAsClear [scenarioSell, scenarioBuy]).demandAccepted = 100 ∧
    ∃ p : Rat, (payAsClear [scenarioSell, scenarioBuy]).price = some p ∧
      20 ≤ p ∧ p ≤ 30 := by
  have hsell : scenarioSell.volume / defaultMarketConfig.amount_tick = -1000 := by
    norm_num [scenarioSell, defaultMarketConfig]
  have hbuy : scenarioBuy.volume / defaultMarketConfig.amount_tick = 1000 := by
    norm_num [scenarioBuy, defaultMarketConfig]
  refine ⟨by norm_num [defaultMarketConfig], by norm_num [defaultMarketConfig],
    by norm_num [defaultMarketConfig], ?_, ?_, ?_, ?_, 30, ?_, by norm_num,
    by norm_num⟩
  · simp only [validOrder, hsell]
    norm_num [defaultMarketConfig, scenarioSell]
  · simp only [validOrder, hbuy]
    norm_num [defaultMarketConfig, scenarioBuy]
  · norm_num [payAsClear, meritMatch, sortAsc, insertAsc, sortDesc, insertDesc,
      scenarioSell, scenarioBuy, List.filter, sumVolumes]
  · norm_num [payAsClear, meritMatch, sortAsc, insertAsc, sortDesc, insertDesc,
      scenarioSell, scenarioBuy, List.filter, sumVolumes]
  · norm_num [payAsClear, meritMatch, sortAsc, insertAsc, sortDesc, insertDesc,
      scenarioSell, scenarioBuy, List.filter]

/-- C4 counterexample: for the demand unit with positive
`max_power = 1000`, the bid volume produced by
`calculate_operational_window` is `-1000`, not positive — refuting the
claim that a buy-side unit's bid volume is positive. -/
theorem demand_volume_not_positive :
    0 < testDemand.max_power 0 ∧
    ¬ 0 < (calculate_operational_window testDemand 0).power ∧
    (calculate_operational_window testDemand 0).power = -1000 := by
  refine ⟨by decide, by decide, by decide⟩

/-- C4 (amended): for every demand unit and window start with positive
`max_power`, the bid volume produced by `calculate_operational_window` is
the negation of `max_power`, hence negative: the repository represents
demand bids with negative volume. -/
theorem demand_volume_is_negated_max_power (u : Demand) (s : Int)
    (h : 0 < u.max_power s) :
    (calculate_operational_window u s).power = -(u.max_power s) ∧
    (calculate_operational_window u s).power < 0 := by
  refine ⟨rfl, ?_⟩
  simp only [calculate_operational_window]
  linarith

/-- C4 witness: the amended statement evaluated on the unit of
`test_formulate_bids`. -/
theorem demand_volume_is_negated_max_power_witness :
    (calculate_operational_window testDemand 0).power = -(testDemand.max_power 0) ∧
    (calculate_operational_window testDemand 0).power < 0 :=
  demand_volume_is_negated_max_power testDemand 0 (by decide)

/-- C5: a template whose resolved count is non-positive contributes zero
product instances for the round (the generator returns an empty list rather
than raising an error). -/
theorem nonpositive_count_yields_no_products (tpl : MarketProduct) (t : Int)
    (h : resolveField tpl.count t ≤ 0) :
    productsOf tpl t = [] := by
  have : numProducts tpl t = 0 := by
    simp only [numProducts]
    omega
  simp [productsOf, this]

/-- C5 witness: a template with fixed count `-3` contributes zero products
at `t = 0`. -/
theorem nonpositive_count_yields_no_products_witness :
    productsOf { duration := 1, count := .fixed (-3),
                 first_delivery_after_start := .fixed 0 } 0 = [] :=
  nonpositive_count_yields_no_products _ 0 (by decide)

/-- C6: `dynamic_end` returns `rd(days=+1, hour=0)` before 15:00 and
`rd(days=+2, hour=0)` from 15:00 on, so the tradable horizon ends at the
start of the next day before 15:00 and at the start of the day after next
afterwards. -/
theorem dynamic_end_horizon (t : Int) :
    dynamic_end t = (if hourOf t < 15 then { days := 1, hour := some 0 }
                     else { days := 2, hour := some 0 } : RelDelta) ∧
    applyRd (dynamic_end t) t =
      (if hourOf t < 15 then dayStart t + 24 else dayStart t + 48) := by
  refine ⟨rfl, ?_⟩
  by_cases h : hourOf t < 15
  · rw [if_pos h]
    simp only [dynamic_end, if_pos h, applyRd, dayStart]
    omega
  · rw [if_neg h]
    simp only [dynamic_end, if_neg h, applyRd, dayStart]
    omega

/-- C8: the Product Schedule Generator is deterministic — two calls with
the same template list and opening timestamp return the same ordered
product list. -/
theorem schedule_deterministic (tpls : List MarketProduct) (t : Int) :
    get_available_products tpls t = get_available_products tpls t := rfl

/-- C9: `dynamic_repetition` returns `24 + hour` before 13:00 and `hour`
afterwards, is always at least `13`, and therefore the after-market
template's resolved product count is strictly positive at every opening
instant. -/
theorem dynamic_repetition_bounds (t : Int) :
    dynamic_repetition t =
      (if hourOf t < 13 then 24 + hourOf t else hourOf t) ∧
    13 ≤ dynamic_repetition t ∧
    0 < resolveField epex_aftermarket_product.count t ∧
    0 < numProducts epex_aftermarket_product t := by
  have h13 : 13 ≤ dynamic_repetition t := by
    simp only [dynamic_repetition, hourOf]
    split <;> omega
  have hres : resolveField epex_aftermarket_product.count t =
      dynamic_repetition t := rfl
  refine ⟨rfl, h13, by omega, ?_⟩
  simp only [numProducts, hres]
  omega

/-- C10: the `ppa` contract is conservative — it moves `26` per unit of the
seller's prior generation from the buyer's revenue to the seller's, moves
the generation to the buyer, zeroes the seller's generation, and preserves
the revenue and generation totals. -/
theorem ppa_conservation (b s : Agent) :
    ((ppa b s).1.revenue + (ppa b s).2.revenue = b.revenue + s.revenue) ∧
    ((ppa b s).1.generation + (ppa b s).2.generation
        = b.generation + s.generation) ∧
    ((ppa b s).2.generation = 0) ∧
    ((ppa b s).2.revenue = s.revenue + 26 * s.generation) ∧
    ((ppa b s).1.revenue = b.revenue - 26 * s.generation) := by
  refine ⟨?_, ?_, ?_, ?_, ?_⟩ <;> simp [ppa] <;> ring

theorem sumVolumes_nil : sumVolumes [] = 0 := rfl

theorem sumVolumes_cons (c : Rat × Rat) (l : List (Rat × Rat)) :
    sumVolumes (c :: l) = c.2 + sumVolumes l := by
  simp [sumVolumes]

theorem sumVolumes_map_negSnd (f : Rat × Rat → Rat) (l : List (Rat × Rat)) :
    sumVolumes (l.map fun c => (f c, -c.2)) = -sumVolumes l := by
  induction l with
  | nil => simp [sumVolumes]
  | cons c l ih =>
    simp only [List.map_cons, sumVolumes_cons] at *
    rw [ih]
    ring

theorem sumVolumes_map_snd (f : Rat × Rat → Rat) (l : List (Rat × Rat)) :
    sumVolumes (l.map fun c => (f c, c.2)) = sumVolumes l := by
  induction l with
  | nil => simp [sumVolumes]
  | cons c l ih =>
    simp only [List.map_cons, sumVolumes_cons] at *
    rw [ih]

theorem meritMatch_balanced (s d : List (Rat × Rat)) :
    sumVolumes (meritMatch s d).1 = sumVolumes (meritMatch s d).2.1 := by
  induction s, d using meritMatch.induct with
  | case1 d => simp [meritMatch]
  | case2 h t => simp [meritMatch]
  | case3 sp sv ss dp dv ds h => simp [meritMatch, h]
  | case4 sp sv ss dp dv ds h1 h2 ih =>
    simp only [meritMatch, if_neg h1, if_pos h2, sumVolumes_cons] at *
    rw [ih]
  | case5 sp sv ss dp dv ds h1 h2 h3 ih =>
    simp only [meritMatch, if_neg h1, if_neg h2, if_pos h3, sumVolumes_cons] at *
    rw [ih]
  | case6 sp sv ss dp dv ds h1 h2 h3 ih =>
    simp only [meritMatch, if_neg h1, if_neg h2, if_neg h3, sumVolumes_cons] at *
    rw [ih]

theorem payAsClear_balanced (book : List Order) :
    sumVolumes (payAsClear book).supplyAccepted
      = -sumVolumes (payAsClear book).demandAccepted := by
  simp only [payAsClear, sumVolumes_map_negSnd, sumVolumes_map_snd]
  rw [meritMatch_balanced]

theorem payAsBid_balanced (book : List Order) :
    sumVolumes (payAsBid book).supplyAccepted
      = -sumVolumes (payAsBid book).demandAccepted := by
  simp only [payAsBid, sumVolumes_map_negSnd, sumVolumes_map_snd]
  rw [meritMatch_balanced]

theorem betterOf_compatible (o : Order) (acc : Option Order) (r b : Order)
    (hacc : ∀ x, acc = some x → compatible x o = true)
    (hb : betterOf o acc r = some b) : compatible b o = true := by
  by_cases hc : compatible r o
  · simp only [betterOf, if_pos hc] at hb
    cases acc with
    | none =>
      cases hb
      exact hc
    | some x =>
      by_cases hlt : (if 0 < o.volume then r.price < x.price else x.price < r.price)
      · simp only [if_pos hlt] at hb
        cases hb
        exact hc
      · simp only [if_neg hlt] at hb
        cases hb
        exact hacc b rfl
  · simp only [betterOf, if_neg hc] at hb
    exact hacc b hb

theorem findBest_compatible (book : List Order) (o b : Order)
    (h : findBest book o = some b) : compatible b o = true := by
  suffices H : ∀ (l : List Order) (acc : Option Order),
      (∀ x, acc = some x → compatible x o = true) →
      ∀ b, l.foldl (betterOf o) acc = some b → compatible b o = true by
    exact H book none (by intro x hx; cases hx) b h
  intro l
  induction l with
  | nil =>
    intro acc hacc b hb
    exact hacc b hb
  | cons r rs ih =>
    intro acc hacc b hb
    exact ih (betterOf o acc r)
      (fun x hx => betterOf_compatible o acc r x hacc hx) b hb

theorem matchCont_trades_balanced (fuel : Nat) (book : List Order) (o : Order) :
    (((matchCont fuel book o).2).map
      (fun t => t.newAccepted + t.restAccepted)).sum = 0 := by
  induction fuel generalizing book o with
  | zero => simp [matchCont]
  | succ fuel ih =>
    by_cases h0 : o.volume = 0
    · simp [matchCont, h0]
    · rcases hb : findBest book o with _ | b
      · simp [matchCont, h0, hb]
      · have hcomp := findBest_compatible book o b hb
        simp only [matchCont, if_neg h0, hb, List.map_cons, List.sum_cons, ih]
        have hside : (if 0 < o.volume then min |o.volume| |b.volume|
              else -min |o.volume| |b.volume|) +
            (if b.volume < 0 then -min |o.volume| |b.volume|
              else min |o.volume| |b.volume|) = 0 := by
          by_cases hov : 0 < o.volume
          · have hbv : b.volume < 0 := by
              simp only [compatible, if_pos hov, Bool.and_eq_true,
                decide_eq_true_eq] at hcomp
              exact hcomp.1
            simp [hov, hbv]
          · have hov' : o.volume < 0 := lt_of_le_of_ne (not_lt.mp hov) h0
            have hbv : 0 < b.volume := by
              simp only [compatible, if_neg hov, if_pos hov', Bool.and_eq_true,
                decide_eq_true_eq] at hcomp
              exact hcomp.1
            have hbv' : ¬ b.volume < 0 := not_lt.mpr (le_of_lt hbv)
            simp [hov, hbv']
        simpa using hside

theorem sum_map_add_split (l : List Trade) (f g : Trade → Rat) :
    (l.map f).sum + (l.map g).sum = (l.map fun t => f t + g t).sum := by
  induction l with
  | nil => simp
  | cons t l ih =>
    simp only [List.map_cons, List.sum_cons, ← ih]
    ring

/-- C1: for every cleared product under each of the three mechanisms
(`pay_as_clear`, `pay_as_bid`, `continuous_clearing`), the sum of accepted
supply volumes equals the negation of the sum of accepted demand volumes
within one amount tick (`0.1`, the tick of every declared market config);
for the continuous mechanism the two sides of every submission's trades
are the incoming and the resting side. -/
theorem volume_balance_all_mechanisms :
    (∀ book : List Order,
      |sumVolumes (payAsClear book).supplyAccepted +
        sumVolumes (payAsClear book).demandAccepted| ≤
          defaultMarketConfig.amount_tick) ∧
    (∀ book : List Order,
      |sumVolumes (payAsBid book).supplyAccepted +
        sumVolumes (payAsBid book).demandAccepted| ≤
          defaultMarketConfig.amount_tick) ∧
    (∀ (book : List Order) (o : Order),
      |(((submit book o).2).map (fun t => t.newAccepted)).sum +
        (((submit book o).2).map (fun t => t.restAccepted)).sum| ≤
          defaultMarketConfig.amount_tick) := by
  have htick : (0:Rat) ≤ defaultMarketConfig.amount_tick := by
    norm_num [defaultMarketConfig]
  refine ⟨?_, ?_, ?_⟩
  · intro book
    rw [payAsClear_balanced book]
    simpa using htick
  · intro book
    rw [payAsBid_balanced book]
    simpa using htick
  · intro book o
    rw [sum_map_add_split]
    rw [show (submit book o).2 =
        (matchCont ((book.filter fun r => r.agent_id ≠ o.agent_id).length + 1)
          (book.filter fun r => r.agent_id ≠ o.agent_id) o).2 from rfl]
    rw [matchCont_trades_balanced]
    simpa using htick

theorem length_productsOf (tpl : MarketProduct) (t : Int) :
    (productsOf tpl t).length = numProducts tpl t := by
  simp [productsOf]

theorem gap_cons (tpl : MarketProduct) (tpls : List MarketProduct) (t : Int) :
    get_available_products (tpl :: tpls) t =
      productsOf tpl t ++ get_available_products tpls t := by
  simp [get_available_products]

theorem length_gap (tpls : List MarketProduct) (t : Int) :
    (get_available_products tpls t).length =
      (tpls.map fun tp => numProducts tp t).sum := by
  induction tpls with
  | nil => simp [get_available_products]
  | cons tpl rest ih => simp [gap_cons, length_productsOf, ih]

theorem countBefore_succ (tpl : MarketProduct) (rest : List MarketProduct)
    (t : Int) (j : Nat) :
    countBefore (tpl :: rest) t (j + 1) =
      numProducts tpl t + countBefore rest t j := by
  simp [countBefore]

theorem gap_getElem (t : Int) :
    ∀ (tpls : List MarketProduct) (j i : Nat) (hj : j < tpls.length),
      i < numProducts (tpls.get ⟨j, hj⟩) t →
      (get_available_products tpls t)[countBefore tpls t j + i]? =
        some (mkProduct (tpls.get ⟨j, hj⟩) t i) := by
  intro tpls
  induction tpls with
  | nil =>
    intro j i hj _
    exact absurd hj (Nat.not_lt_zero j)
  | cons tpl rest ih =>
    intro j i hj hi
    cases j with
    | zero =>
      have hlen : i < (productsOf tpl t).length := by
        rw [length_productsOf]
        exact hi
      rw [gap_cons]
      have hcb : countBefore (tpl :: rest) t 0 + i = i := by
        simp [countBefore]
      rw [hcb, List.getElem?_append_left hlen]
      simp only [productsOf, List.getElem?_map]
      rw [List.getElem?_range (show i < numProducts tpl t from hi)]
      rfl
    | succ j' =>
      have hj' : j' < rest.length := Nat.lt_of_succ_lt_succ hj
      rw [gap_cons, countBefore_succ]
      have hge : (productsOf tpl t).length ≤
          numProducts tpl t + countBefore rest t j' + i := by
        rw [length_productsOf]
        omega
      rw [List.getElem?_append_right hge]
      have hidx : numProducts tpl t + countBefore rest t j' + i -
          (productsOf tpl t).length = countBefore rest t j' + i := by
        rw [length_productsOf]
        omega
      rw [hidx]
      exact ih j' i hj' hi

/-- C3: for every opening timestamp, template list, template position `j`
and index `i` below the resolved count, the element of the generated list
at position `(sum of counts of earlier templates) + i` is the `i`-th window
of template `j` — windows obey `start = t + offset + i * duration` and
`end = start + duration`, and the list is emitted in template-declaration
order then index order, with exactly one instance per `(template, i)`. -/
theorem schedule_window_formula (tpls : List MarketProduct) (t : Int)
    (j i : Nat) (hj : j < tpls.length)
    (hi : i < numProducts (tpls.get ⟨j, hj⟩) t) :
    (get_available_products tpls t)[countBefore tpls t j + i]? =
      some (mkProduct (tpls.get ⟨j, hj⟩) t i) ∧
    (mkProduct (tpls.get ⟨j, hj⟩) t i).start =
      t + resolveField (tpls.get ⟨j, hj⟩).first_delivery_after_start t +
        i * (tpls.get ⟨j, hj⟩).duration ∧
    (mkProduct (tpls.get ⟨j, hj⟩) t i).stop =
      (mkProduct (tpls.get ⟨j, hj⟩) t i).start + (tpls.get ⟨j, hj⟩).duration ∧
    (get_available_products tpls t).length =
      (tpls.map fun tp => numProducts tp t).sum :=
  ⟨gap_getElem t tpls j i hj hi, rfl, rfl, length_gap tpls t⟩

/-- A sample hourly template with fixed count 2 and offset 30 used to
instantiate the schedule theorems. -/
def sampleTemplate : MarketProduct :=
  { duration := 60, count := .fixed 2, first_delivery_after_start := .fixed 30 }

/-- C3 witness: the schedule formula instantiated at a one-template list,
`t = 0`, `j = 0`, `i = 1`. -/
theorem schedule_window_formula_witness :
    (get_available_products [sampleTemplate] 0)[0 + 1]? =
      some (mkProduct sampleTemplate 0 1) ∧
    (mkProduct sampleTemplate 0 1).start =
      0 + resolveField sampleTemplate.first_delivery_after_start 0 +
        1 * sampleTemplate.duration ∧
    (mkProduct sampleTemplate 0 1).stop =
      (mkProduct sampleTemplate 0 1).start + sampleTemplate.duration ∧
    (get_available_products [sampleTemplate] 0).length =
      ([sampleTemplate].map fun tp => numProducts tp 0).sum :=
  schedule_window_formula [sampleTemplate] 0 0 1 (by decide) (by decide)

theorem foldl_betterOf_none (o : Order) (l : List Order)
    (h : ∀ r ∈ l, compatible r o = false) :
    l.foldl (betterOf o) none = none := by
  induction l with
  | nil => rfl
  | cons r rs ih =>
    have hr : compatible r o = false := h r (List.mem_cons_self r rs)
    have hstep : betterOf o none r = none := by
      simp [betterOf, hr]
    rw [List.foldl_cons, hstep]
    exact ih (fun x hx => h x (List.mem_cons_of_mem r hx))

theorem findBest_none (book : List Order) (o : Order)
    (h : ∀ r ∈ book, compatible r o = false) :
    findBest book o = none :=
  foldl_betterOf_none o book h

theorem matchCont_noMatch (fuel : Nat) (book : List Order) (o : Order)
    (hv : o.volume ≠ 0) (h : findBest book o = none) :
    matchCont (fuel + 1) book o = (book ++ [o], []) := by
  simp [matchCont, hv, h]

theorem submit_noMatch (book : List Order) (o : Order)
    (hv : o.volume ≠ 0)
    (h : ∀ r ∈ book, r.agent_id ≠ o.agent_id → compatible r o = false) :
    submit book o =
      ((book.filter fun r => r.agent_id ≠ o.agent_id) ++ [o], []) := by
  have h1 : ∀ r ∈ book.filter (fun r => r.agent_id ≠ o.agent_id),
      compatible r o = false := by
    intro r hr
    have hm := List.mem_filter.mp hr
    exact h r hm.1 (by simpa using hm.2)
  exact matchCont_noMatch _ _ _ hv (findBest_none _ _ h1)

theorem reduceFirst_count_le (p : Order → Bool) (m : Rat) (a : String)
    (l : List Order) :
    ((reduceFirst p m l).filter fun r => r.agent_id = a).length ≤
      (l.filter fun r => r.agent_id = a).length := by
  induction l with
  | nil => simp [reduceFirst]
  | cons r rs ih =>
    simp only [reduceFirst]
    by_cases hp : p r
    · rw [if_pos hp]
      by_cases hv : |r.volume| = m
      · rw [if_pos hv]
        simp only [List.filter_cons]
        split
        · simp
        · exact le_refl _
      · rw [if_neg hv]
        have hag : (if r.volume < 0 then { r with volume := r.volume + m }
            else { r with volume := r.volume - m }).agent_id = r.agent_id := by
          split <;> rfl
        simp only [List.filter_cons, hag]
        split <;> simp
    · rw [if_neg hp]
      simp only [List.filter_cons]
      split
      · simpa using ih
      · exact ih

theorem withVolume_agent (o : Order) (v : Rat) :
    ({ o with volume := v } : Order).agent_id = o.agent_id := rfl

theorem matchCont_count_le (a : String) (fuel : Nat) :
    ∀ (book : List Order) (o : Order),
      (((matchCont fuel book o).1).filter fun r => r.agent_id = a).length ≤
        (book.filter fun r => r.agent_id = a).length +
          (if o.agent_id = a then 1 else 0) := by
  induction fuel with
  | zero =>
    intro book o
    simp only [matchCont]
    split
    · simp
    · rw [List.filter_append, List.length_append]
      simp only [List.filter_cons, List.filter_nil]
      split <;> simp_all
  | succ fuel ih =>
    intro book o
    by_cases h0 : o.volume = 0
    · simp [matchCont, h0]
    · rcases hb : findBest book o with _ | b
      · simp only [matchCont, if_neg h0, hb]
        rw [List.filter_append, List.length_append]
        simp only [List.filter_cons, List.filter_nil]
        split <;> simp_all
      · simp only [matchCont, if_neg h0, hb]
        refine le_trans (ih _ _) ?_
        have hred := reduceFirst_count_le
          (fun r => compatible r o && decide (r.price = b.price))
          (min |o.volume| |b.volume|) a book
        simp only [withVolume_agent]
        omega

theorem count_filter_filter_le (book : List Order) (p q : Order → Bool) :
    ((book.filter q).filter p).length ≤ (book.filter p).length :=
  ((List.filter_sublist book).filter p).length_le

/-- C7: under continuous clearing, two sequential submissions from the same
participant with no matching counterparty in the book leave exactly one
resting order of that participant — the later submission; and submission
preserves the invariant that each participant has at most one resting
order per product book. -/
theorem continuous_single_resting_order :
    (∀ (book : List Order) (o1 o2 : Order),
      o1.agent_id = o2.agent_id →
      o1.volume ≠ 0 → o2.volume ≠ 0 →
      (∀ r ∈ book, compatible r o1 = false) →
      (∀ r ∈ book, compatible r o2 = false) →
      ((submit (submit book o1).1 o2).1.filter
          fun r => r.agent_id = o2.agent_id) = [o2]) ∧
    (∀ (book : List Order) (o : Order) (a : String),
      (∀ a' : String,
        ((book.filter fun r => r.agent_id = a').length ≤ 1)) →
      (((submit book o).1).filter fun r => r.agent_id = a).length ≤ 1) := by
  constructor
  · intro book o1 o2 ha hv1 hv2 h1 h2
    rw [submit_noMatch book o1 hv1 (fun r hr _ => h1 r hr)]
    have hfil : ((book.filter fun r => r.agent_id ≠ o1.agent_id) ++ [o1]).filter
        (fun r => r.agent_id ≠ o2.agent_id) =
        book.filter fun r => r.agent_id ≠ o1.agent_id := by
      rw [List.filter_append]
      have ho1 : ([o1].filter fun r => r.agent_id ≠ o2.agent_id) = [] := by
        simp [ha]
      rw [ho1, List.append_nil]
      apply List.filter_eq_self.mpr
      intro r hr
      have hm := List.mem_filter.mp hr
      rw [← ha]
      exact hm.2
    have hsub2 : submit ((book.filter fun r => r.agent_id ≠ o1.agent_id) ++ [o1]) o2 =
        ((book.filter fun r => r.agent_id ≠ o1.agent_id) ++ [o2], []) := by
      have hno : ∀ r ∈ (book.filter fun r => r.agent_id ≠ o1.agent_id) ++ [o1],
          r.agent_id ≠ o2.agent_id → compatible r o2 = false := by
        intro r hr hne
        rcases List.mem_append.mp hr with hrl | hrr
        · exact h2 r (List.mem_of_mem_filter hrl)
        · have : r = o1 := by simpa using hrr
          subst this
          exact absurd ha hne
      have := submit_noMatch _ o2 hv2 hno
      rw [this, hfil]
    rw [hsub2]
    rw [List.filter_append]
    have hleft : ((book.filter fun r => r.agent_id ≠ o1.agent_id).filter
        fun r => r.agent_id = o2.agent_id) = [] := by
      rw [List.filter_eq_nil_iff]
      intro r hr
      have hm := List.mem_filter.mp hr
      have hne : r.agent_id ≠ o1.agent_id := by simpa using hm.2
      simp [ha ▸ hne]
    rw [hleft]
    simp
  · intro book o a h
    have hm := matchCont_count_le a
      ((book.filter fun r => r.agent_id ≠ o.agent_id).length + 1)
      (book.filter fun r => r.agent_id ≠ o.agent_id) o
    have hsubmit : (submit book o).1 =
        (matchCont ((book.filter fun r => r.agent_id ≠ o.agent_id).length + 1)
          (book.filter fun r => r.agent_id ≠ o.agent_id) o).1 := rfl
    rw [hsubmit]
    by_cases hao : o.agent_id = a
    · have hz : (((book.filter fun r => r.agent_id ≠ o.agent_id)).filter
          fun r => r.agent_id = a).length = 0 := by
        rw [List.length_eq_zero, List.filter_eq_nil_iff]
        intro r hr
        have hmem := List.mem_filter.mp hr
        have hne : r.agent_id ≠ o.agent_id := by simpa using hmem.2
        simp [hao ▸ hne]
      rw [if_pos hao] at hm
      omega
    · rw [if_neg hao] at hm
      have hle := count_filter_filter_le book
        (fun r => r.agent_id = a) (fun r => r.agent_id ≠ o.agent_id)
      have := h a
      omega

/-- The first submission of the continuous-clearing witness: a sell of
volume `-40` at price `25` from participant `trader`. -/
def submissionOne : Order :=
  { start_time := 0, end_time := 1, volume := -40, price := 25
    only_hours := none, agent_id := "trader" }

/-- The second submission of the continuous-clearing witness: a sell of
volume `-70` at price `24` from the same participant. -/
def submissionTwo : Order :=
  { start_time := 0, end_time := 1, volume := -70, price := 24
    only_hours := none, agent_id := "trader" }

/-- C7 witness: both parts instantiated on an empty book and the two
concrete same-participant submissions. -/
theorem continuous_single_resting_order_witness :
    ((submit (submit [] submissionOne).1 submissionTwo).1.filter
        fun r => r.agent_id = submissionTwo.agent_id) = [submissionTwo] ∧
    (((submit [] submissionOne).1).filter
        fun r => r.agent_id = "trader").length ≤ 1 :=
  ⟨continuous_single_resting_order.1 [] submissionOne submissionTwo rfl
      (by decide) (by decide) (by simp) (by simp),
    continuous_single_resting_order.2 [] submissionOne "trader"
      (by intro a'; simp)⟩

end AssumeSpec

